import Mathlib

/-!
# Verification of the go-llm-proxy caching reverse proxy

Shallow embedding of the core of `go-llm-proxy`: fingerprint hashing
(`internal/utils/key_utils.go`), the two-tier cache (`internal/storage`,
`pkg/db/postgres.go`, `pkg/redis`), the embedding and LLM cache coordinators
(`internal/proxy/embedding_cache.go`, the LLM cache file and the handler),
the round-robin load balancer, the transport selector and the context keys.

Machine words are `Nat` with explicit `% 2^32` / `% 2^64` where the Go code
relies on fixed-width arithmetic.  Byte strings are `List Nat` (each < 256).
Fallible operations return `Option` / `Except` or explicit result types.
External library effects that the claims do not depend on (gzip, JSON usage
extraction, the live DNS resolver, the durable stores) are passed in as
explicit function parameters, so every definition stays executable.
-/

namespace GoLLMProxy

/-! ## SHA-256 (FIPS 180-4), executable, over byte lists

`crypto/sha256` as used by `utils.MakeHash`.  Words are `Nat (mod 2^32)`. -/

def w32 : Nat := 4294967296

def add32 (a b : Nat) : Nat := (a + b) % w32

def rotr32 (n x : Nat) : Nat := ((x >>> n) ||| (x <<< (32 - n))) % w32

def capSigma0 (x : Nat) : Nat := (rotr32 2 x) ^^^ (rotr32 13 x) ^^^ (rotr32 22 x)

def capSigma1 (x : Nat) : Nat := (rotr32 6 x) ^^^ (rotr32 11 x) ^^^ (rotr32 25 x)

def smlSigma0 (x : Nat) : Nat := (rotr32 7 x) ^^^ (rotr32 18 x) ^^^ (x >>> 3)

def smlSigma1 (x : Nat) : Nat := (rotr32 17 x) ^^^ (rotr32 19 x) ^^^ (x >>> 10)

def chF (x y z : Nat) : Nat := (x &&& y) ^^^ ((x ^^^ (w32 - 1)) &&& z)

def majF (x y z : Nat) : Nat := (x &&& y) ^^^ (x &&& z) ^^^ (y &&& z)

def shaK : List Nat := [
  1116352408, 1899447441, 3049323471, 3921009573, 961987163,
  1508970993, 2453635748, 2870763221, 3624381080, 310598401,
  607225278, 1426881987, 1925078388, 2162078206, 2614888103,
  3248222580, 3835390401, 4022224774, 264347078, 604807628,
  770255983, 1249150122, 1555081692, 1996064986, 2554220882,
  2821834349, 2952996808, 3210313671, 3336571891, 3584528711,
  113926993, 338241895, 666307205, 773529912, 1294757372,
  1396182291, 1695183700, 1986661051, 2177026350, 2456956037,
  2730485921, 2820302411, 3259730800, 3345764771, 3516065817,
  3600352804, 4094571909, 275423344, 430227734, 506948616,
  659060556, 883997877, 958139571, 1322822218, 1537002063,
  1747873779, 1955562222, 2024104815, 2227730452, 2361852424,
  2428436474, 2756734187, 3204031479, 3329325298]

def shaH0 : List Nat := [
  1779033703, 3144134277, 1013904242, 2773480762, 1359893119,
  2600822924, 528734635, 1541459225]

/-- Big-endian encoding of `v` into `n` bytes. -/
def beBytes (n v : Nat) : List Nat :=
  (List.range n).map (fun i => (v >>> (8 * (n - 1 - i))) % 256)

/-- SHA-256 padding: append `0x80`, zeros to 56 mod 64, then the 64-bit
big-endian bit length. -/
def shaPad (msg : List Nat) : List Nat :=
  let L := msg.length
  msg ++ 0x80 :: List.replicate ((119 - L % 64) % 64) 0 ++ beBytes 8 (L * 8)

/-- Group bytes into big-endian 32-bit words. -/
def toWords : List Nat → List Nat
  | a :: b :: c :: d :: rest => (((a * 256 + b) * 256 + c) * 256 + d) :: toWords rest
  | _ => []

/-- Split a word list into 16-word blocks. -/
def toBlocks (ws : List Nat) : List (List Nat) :=
  (List.range ((ws.length + 15) / 16)).map (fun i => ((ws.drop (16 * i)).take 16))

/-- Extend a 16-word block by `n` schedule words. -/
def scheduleAux (ws : List Nat) : Nat → List Nat
  | 0 => ws
  | n + 1 =>
    let w := scheduleAux ws n
    let i := w.length
    w ++ [add32 (add32 (smlSigma1 (w.getD (i - 2) 0)) (w.getD (i - 7) 0))
            (add32 (smlSigma0 (w.getD (i - 15) 0)) (w.getD (i - 16) 0))]

def schedule (block : List Nat) : List Nat := scheduleAux block 48

structure ShaState where
  a : Nat
  b : Nat
  c : Nat
  d : Nat
  e : Nat
  f : Nat
  g : Nat
  hh : Nat

def shaRound (s : ShaState) (k w : Nat) : ShaState :=
  let t1 := add32 (add32 (add32 s.hh (capSigma1 s.e)) (add32 (chF s.e s.f s.g) k)) w
  let t2 := add32 (capSigma0 s.a) (majF s.a s.b s.c)
  ⟨add32 t1 t2, s.a, s.b, s.c, add32 s.d t1, s.e, s.f, s.g⟩

def compress (hv : List Nat) (block : List Nat) : List Nat :=
  let g := fun i => hv.getD i 0
  let s0 : ShaState := ⟨g 0, g 1, g 2, g 3, g 4, g 5, g 6, g 7⟩
  let sf := (List.zip shaK (schedule block)).foldl
    (fun s kw => shaRound s kw.1 kw.2) s0
  [add32 (g 0) sf.a, add32 (g 1) sf.b, add32 (g 2) sf.c, add32 (g 3) sf.d,
   add32 (g 4) sf.e, add32 (g 5) sf.f, add32 (g 6) sf.g, add32 (g 7) sf.hh]

/-- SHA-256 digest (32 bytes) of a byte list. -/
def sha256 (msg : List Nat) : List Nat :=
  (((toBlocks (toWords (shaPad msg))).foldl compress shaH0).map (beBytes 4)).flatten

def hexDigit (n : Nat) : Char :=
  if n < 10 then Char.ofNat (48 + n) else Char.ofNat (87 + n)

def bytesToHex (bs : List Nat) : String :=
  String.mk ((bs.map (fun b => [hexDigit (b / 16), hexDigit (b % 16)])).flatten)

/-- UTF-8 encoding of one character (Go strings hash as their UTF-8 bytes). -/
def utf8EncodeChar (c : Char) : List Nat :=
  let n := c.toNat
  if n < 0x80 then [n]
  else if n < 0x800 then
    [0xC0 ||| (n >>> 6), 0x80 ||| (n &&& 0x3F)]
  else if n < 0x10000 then
    [0xE0 ||| (n >>> 12), 0x80 ||| ((n >>> 6) &&& 0x3F), 0x80 ||| (n &&& 0x3F)]
  else
    [0xF0 ||| (n >>> 18), 0x80 ||| ((n >>> 12) &&& 0x3F),
     0x80 ||| ((n >>> 6) &&& 0x3F), 0x80 ||| (n &&& 0x3F)]

def strBytes (s : String) : List Nat := (s.data.map utf8EncodeChar).flatten

/-- Translation of `utils.MakeHash`: SHA-256 hex digest of a string's bytes. -/
def MakeHash (s : String) : String := bytesToHex (sha256 (strBytes s))

/-- Translation of `utils.MakeEmbeddingCacheKey` (key_utils.go:37-39): hash of
`input_text + "|" + model`. -/
def MakeEmbeddingCacheKey (inputText modelName : String) : String :=
  MakeHash (inputText ++ "|" ++ modelName)

set_option maxRecDepth 10000 in
/-- FIPS 180-4 test vector: the digest of the empty message. -/
theorem sha256_empty_vector :
    MakeHash "" =
      "e3b0c44298fc1c149afbf4c8996fb92427ae41e4649b934ca495991b7852b855" := by
  decide

set_option maxRecDepth 10000 in
/-- FIPS 180-4 test vector: the digest of "abc". -/
theorem sha256_abc_vector :
    MakeHash "abc" =
      "ba7816bf8f01cfea414140de5dae2223b00361a396177a9cb410ff61f20015ad" := by
  decide

/-! ## Round-robin load balancer (loadbalancer file)

`RoundRobinLoadBalancer.GetNext` does
`current := atomic.AddUint64(&rr.current, 1) - 1; index := current % len(urls)`.
The counter is a `uint64`, modelled as `Nat` reduced `% 2^64` at the add and
at the subtraction. -/

def w64 : Nat := 18446744073709551616

structure RoundRobinLoadBalancer where
  urls : List String
  current : Nat

def NewRoundRobinLoadBalancer (urls : List String) : RoundRobinLoadBalancer :=
  { urls := urls, current := 0 }

/-- Translation of `RoundRobinLoadBalancer.GetNext`: returns the selected URL
and the balancer with the incremented counter.  The empty-list check precedes
the atomic add, so an empty balancer is never incremented. -/
def GetNext (rr : RoundRobinLoadBalancer) : String × RoundRobinLoadBalancer :=
  if rr.urls.length = 0 then ("", rr)
  else
    let newCur := (rr.current + 1) % w64
    let current := (newCur + (w64 - 1)) % w64
    let index := current % rr.urls.length
    (rr.urls.getD index "", { rr with current := newCur })

/-- Result of the i-th `GetNext` call (counting from zero) in a sequence of
calls starting from `rr`. -/
def getNextIter (rr : RoundRobinLoadBalancer) : Nat → String
  | 0 => (GetNext rr).1
  | n + 1 => getNextIter (GetNext rr).2 n

theorem getNext_counter_step (c : Nat) :
    ((c + 1) % w64 + (w64 - 1)) % w64 = c % w64 := by
  simp only [w64]
  omega

theorem getNextIter_spec (rr : RoundRobinLoadBalancer) (i : Nat)
    (hne : rr.urls.length ≠ 0) :
    getNextIter rr i = rr.urls.getD (((rr.current + i) % w64) % rr.urls.length) "" := by
  induction i generalizing rr with
  | zero =>
    simp only [getNextIter, GetNext, if_neg hne, getNext_counter_step, Nat.add_zero]
  | succ n ih =>
    have h2 : (({ rr with current := (rr.current + 1) % w64 } :
        RoundRobinLoadBalancer)).urls.length ≠ 0 := hne
    simp only [getNextIter, GetNext, if_neg hne]
    rw [ih _ h2]
    have h3 : ((rr.current + 1) % w64 + n) % w64 = (rr.current + (n + 1)) % w64 := by
      simp only [w64]
      omega
    simp [h3]

/-! ## Context keys and the detached upstream context (handler + cache files)

`cacheContextKey` is an empty struct; the handler file declares it, and both
the LLM cache file and the embedding cache file define their key as
`cacheContextKey{}`.  `context.WithValue`/`Value` is modelled as an
association list searched from the innermost entry out, which is Go's
lookup order along the context chain. -/

structure CacheContextKey : Type where
deriving DecidableEq

/-- Translation of `var llmCacheContextKey = cacheContextKey{}`. -/
def llmCacheContextKey : CacheContextKey := {}

/-- Translation of `var embeddingCacheContextKey = cacheContextKey{}`. -/
def embeddingCacheContextKey : CacheContextKey := {}

/-! ## Records (pkg/db) and cache metadata (proxy files)

A Go `float64` carried in an embedding vector is never computed with, only
moved between JSON, Postgres and Redis; it is modelled as its opaque bit
pattern. -/

structure GoFloat where
  bits : Nat
deriving DecidableEq, Repr

/-- Union of the `db.EmbeddingRecord` fields used by the storage layer
(`input_hash`, `input_text`, `model_name`, `embedding`) and by the embedding
coordinator (`request_id`, `dimensions`, `token_count`, `start_time`,
`end_time`).  Timestamps are abstract `Nat` instants. -/
structure EmbeddingRecord where
  id : Nat := 0
  inputHash : String := ""
  inputText : String := ""
  modelName : String := ""
  requestId : String := ""
  dimensions : Option Int := none
  embedding : List GoFloat := []
  tokenCount : Option Int := none
  startTime : Option Nat := none
  endTime : Option Nat := none
deriving DecidableEq, Repr

/-- Translation of `db.LLMRecord`; `request` and `response` are the raw JSON
byte strings, `temperature` the NUMERIC(3,2) parameter as a rational. -/
structure LLMRecord where
  id : Nat := 0
  requestId : String := ""
  requestHash : String := ""
  request : String := ""
  modelName : String := ""
  temperature : Option Rat := none
  maxTokens : Option Int := none
  response : String := ""
  totalTokens : Option Int := none
  promptTokens : Option Int := none
  completionTokens : Option Int := none
  startTime : Option Nat := none
  endTime : Option Nat := none
deriving DecidableEq, Repr

/-- Translation of `embeddingInputMeta`: an input's original index and value. -/
structure EmbInputMeta where
  index : Nat
  value : String
deriving DecidableEq, Repr

/-- Translation of `embeddingCacheMetadata`.  The Go `hits` map
(original index → record) is an association list with distinct keys. -/
structure EmbeddingCacheMetadata where
  model : String
  total : Nat
  hits : List (Nat × EmbeddingRecord)
  misses : List EmbInputMeta
  dimensions : Option Int
  startTime : Nat
  requestID : String
deriving DecidableEq, Repr

/-- Translation of `llmCacheMetadata`. -/
structure LLMCacheMetadata where
  prompt : String
  model : String
  temperature : Option Rat := none
  maxTokens : Option Int := none
  stream : Bool := false
  startTime : Nat := 0
  requestID : String := ""
deriving DecidableEq, Repr

/-- The dynamic type of a value stored under a cache context key: the handler
stores either a `*llmCacheMetadata` or a `*embeddingCacheMetadata`. -/
inductive CacheVal where
  | llm (m : LLMCacheMetadata)
  | emb (m : EmbeddingCacheMetadata)
deriving DecidableEq, Repr

/-- A request context restricted to cache-context-key entries: Go's
`context.WithValue` chain, innermost first. -/
def Ctx : Type := List (CacheContextKey × CacheVal)

/-- Translation of `context.WithValue(ctx, k, v)`. -/
def withValue (ctx : Ctx) (k : CacheContextKey) (v : CacheVal) : Ctx :=
  (k, v) :: ctx

/-- Translation of `ctx.Value(k)`: the innermost entry whose key equals `k`. -/
def ctxValue (ctx : Ctx) (k : CacheContextKey) : Option CacheVal :=
  ((ctx : List (CacheContextKey × CacheVal)).find? (fun p => p.1 = k)).map (·.2)

/-- Context transfer in `Handler.director`: a fresh 900-second context is
created from `context.Background()`, and the value stored under
`llmCacheContextKey` — when present — is copied into it. -/
def directorDetachContext (ctx : Ctx) : Ctx :=
  match ctxValue ctx llmCacheContextKey with
  | some v => withValue ([] : Ctx) llmCacheContextKey v
  | none => ([] : Ctx)

/-- Outcome of `Handler.modifyResponse`'s dispatch on the context value. -/
inductive ModifyDispatch where
  | noHook
  | llmPost (m : LLMCacheMetadata)
  | embPost (m : EmbeddingCacheMetadata)
deriving DecidableEq, Repr

/-- Translation of the dispatch in `Handler.modifyResponse`: first a type
assertion to `*llmCacheMetadata` guarded by `!meta.stream`, then a type
assertion to `*embeddingCacheMetadata`. -/
def modifyResponseDispatch (ctx : Ctx) : ModifyDispatch :=
  match ctxValue ctx llmCacheContextKey with
  | some (.llm m) =>
    if m.stream then
      match ctxValue ctx embeddingCacheContextKey with
      | some (.emb me) => .embPost me
      | _ => .noHook
    else .llmPost m
  | some (.emb me) => .embPost me
  | none =>
    match ctxValue ctx embeddingCacheContextKey with
    | some (.emb me) => .embPost me
    | _ => .noHook

/-! ## Address classification and transport selection (ip utils + transport.go)

`utils.IsPrivateIP` parses a string and checks membership in four CIDR
blocks whose masks are 4 bytes, so only IPv4 (or IPv4-mapped) addresses can
match; everything else — including unparseable strings — classifies public.
Addresses are modelled already parsed; `nonV4` covers both. -/

inductive IPAddr where
  | v4 (a b c d : Nat)
  | nonV4
deriving DecidableEq, Repr

structure IPNet where
  net : List Nat
  mask : List Nat
deriving DecidableEq, Repr

/-- Translation of `privateBlocks`: 10.0.0.0/8, 172.16.0.0/12,
192.168.0.0/16, 127.0.0.0/8. -/
def privateBlocks : List IPNet := [
  ⟨[10, 0, 0, 0], [255, 0, 0, 0]⟩,
  ⟨[172, 16, 0, 0], [255, 240, 0, 0]⟩,
  ⟨[192, 168, 0, 0], [255, 255, 0, 0]⟩,
  ⟨[127, 0, 0, 0], [255, 0, 0, 0]⟩]

/-- Translation of `net.IPNet.Contains` for a 4-byte network: each address
byte masked must equal the network byte; non-IPv4 addresses never match. -/
def ipnetContains (blk : IPNet) : IPAddr → Bool
  | .v4 a b c d =>
    (List.zip [a, b, c, d] (List.zip blk.net blk.mask)).all
      (fun p => p.1 &&& p.2.2 == p.2.1)
  | .nonV4 => false

/-- Translation of `utils.IsPrivateIP`. -/
def IsPrivateIP (ip : IPAddr) : Bool :=
  privateBlocks.any (fun blk => ipnetContains blk ip)

/-- Result of `utils.LookupIPWithCache` (DNS cache + live resolver,
abstracted into one resolver function). -/
inductive LookupResult where
  | ok (ips : List IPAddr)
  | lookupErr
deriving DecidableEq, Repr

/-- Translation of `utils.ShouldUseProxy`: on lookup error, default to using
the proxy; if any resolved address is private, do not use the proxy. -/
def ShouldUseProxy (resolve : String → LookupResult) (host : String) : Bool :=
  match resolve host with
  | .lookupErr => true
  | .ok ips => if ips.any IsPrivateIP then false else true

inductive TransportChoice where
  | direct
  | proxied
deriving DecidableEq, Repr

/-- Translation of the transport pick in
`TransportWithProxyAutoDetected.RoundTrip`: `trans := directTransport;
if useProxy { trans = proxyTransport }`.  Note the pick does not consult
whether a proxy URL is configured — that only determines whether
`proxyTransport.Proxy` is non-nil. -/
def roundTripTransport (resolve : String → LookupResult) (host : String) :
    TransportChoice :=
  if ShouldUseProxy resolve host then .proxied else .direct

/-- Modelled from the spec (§4.2 TransportSelector), for comparison with
`roundTripTransport`: direct when any resolved address is private, otherwise
proxied if a proxy is configured and direct if not; resolver failures
propagate. -/
def specTransportSelection (resolve : String → LookupResult)
    (proxyConfigured : Bool) (host : String) : Except Unit TransportChoice :=
  match resolve host with
  | .lookupErr => .error ()
  | .ok ips =>
    if ips.any IsPrivateIP then .ok .direct
    else if proxyConfigured then .ok .proxied
    else .ok .direct

/-! ## Two-tier storage (storage file + pkg/db/postgres.go + pkg/redis)

`Storage.GetEmbedding` / `Storage.GetLLM` consult Redis (tier 1), fall back
to Postgres (tier 2) and backfill Redis on a Postgres hit.  The branching on
tier outcomes is factored into `getLLMCore` / `getEmbeddingCore`, which take
the tier behaviours as explicit results; the fault-free state model below
instantiates them. -/

inductive Tier1Res (α : Type) where
  | found (r : α)
  | miss
  | fail
deriving DecidableEq, Repr

inductive Tier2Res (α : Type) where
  | row (r : α)
  | noRows
  | dbErr
deriving DecidableEq, Repr

inductive GetResult (α : Type) where
  | ok (r : Option α)
  | storageErr
deriving DecidableEq, Repr

/-- Translation of the branching in `Storage.GetLLM`: a Redis hit returns
immediately; a Redis miss or error falls through to Postgres; `pgx.ErrNoRows`
is converted to `(nil, nil)` (a not-found signal); other Postgres errors
propagate. -/
def getLLMCore {α : Type} : Tier1Res α → Tier2Res α → GetResult α
  | .found r, _ => .ok (some r)
  | .miss, .row r => .ok (some r)
  | .miss, .noRows => .ok none
  | .miss, .dbErr => .storageErr
  | .fail, .row r => .ok (some r)
  | .fail, .noRows => .ok none
  | .fail, .dbErr => .storageErr

/-- Translation of the branching in `Storage.GetEmbedding`: as `getLLMCore`,
except that the Postgres error path has no `pgx.ErrNoRows` test, so a tier-2
not-found (`QueryRow.Scan` returning `ErrNoRows`) propagates as an error. -/
def getEmbeddingCore {α : Type} : Tier1Res α → Tier2Res α → GetResult α
  | .found r, _ => .ok (some r)
  | .miss, .row r => .ok (some r)
  | .miss, .noRows => .storageErr
  | .miss, .dbErr => .storageErr
  | .fail, .row r => .ok (some r)
  | .fail, .noRows => .storageErr
  | .fail, .dbErr => .storageErr

/-- Redis keyspace as an association list; `SET` prepends, `GET` finds the
most recent entry. -/
def RedisMap (α : Type) : Type := List (String × α)

def redisGetState {α : Type} (m : RedisMap α) (k : String) : Option α :=
  ((m : List (String × α)).find? (fun p => p.1 = k)).map (·.2)

def redisSetState {α : Type} (m : RedisMap α) (k : String) (v : α) : RedisMap α :=
  (k, v) :: (m : List (String × α))

/-- Conflict target of `sqlUpsertLLM`: `ON CONFLICT (request_hash,
model_name)`, matching the `UNIQUE(request_hash, model_name)` constraint of
`llm_cache`. -/
def llmConflictMatch (r q : LLMRecord) : Bool :=
  r.requestHash == q.requestHash && r.modelName == q.modelName

/-- The `DO UPDATE SET` clause of `sqlUpsertLLM`: updates request_id,
response, the three token counts, start/end time (and `updated_at`); the
conflict keys, request, temperature and max_tokens keep the stored values. -/
def llmApplyUpdate (r q : LLMRecord) : LLMRecord :=
  { r with requestId := q.requestId, response := q.response,
           totalTokens := q.totalTokens, promptTokens := q.promptTokens,
           completionTokens := q.completionTokens,
           startTime := q.startTime, endTime := q.endTime }

/-- Insert-on-conflict-update against the `llm_cache` table, one row per
`(request_hash, model_name)`. -/
def pgUpsertLLMRow (tbl : List LLMRecord) (q : LLMRecord) : List LLMRecord :=
  if tbl.any (fun r => llmConflictMatch r q) then
    tbl.map (fun r => if llmConflictMatch r q then llmApplyUpdate r q else r)
  else tbl ++ [q]

/-- Translation of `Postgres.UpsertLLM`: the hash is recomputed from the raw
request bytes and written back into the record, then the row is upserted. -/
def dbUpsertLLM (tbl : List LLMRecord) (q : LLMRecord) :
    List LLMRecord × LLMRecord :=
  let q2 := { q with requestHash := MakeHash q.request }
  (pgUpsertLLMRow tbl q2, q2)

/-- Translation of `Postgres.GetLLM`: `WHERE request_hash = $1` only;
`QueryRow.Scan` yields `ErrNoRows` when no row matches. -/
def dbGetLLM (tbl : List LLMRecord) (request : String) : Tier2Res LLMRecord :=
  match tbl.find? (fun r => r.requestHash = MakeHash request) with
  | some r => .row r
  | none => .noRows

/-- Fingerprint used on the embedding storage path: both the Redis key of
`Storage.GetEmbedding`/`UpsertEmbedding` and the row hash of
`Postgres.GetEmbedding`/`UpsertEmbedding` are
`utils.MakeHash(inputText + modelName)` — concatenation with no separator. -/
def embStorageHash (inputText modelName : String) : String :=
  MakeHash (inputText ++ modelName)

/-- Translation of `Postgres.UpsertEmbedding`: INSERT of (hash, text, model,
embedding), `ON CONFLICT (input_hash, model_name) DO UPDATE SET embedding`. -/
def pgUpsertEmbeddingRow (tbl : List EmbeddingRecord)
    (inputText modelName : String) (emb : List GoFloat) : List EmbeddingRecord :=
  let hash := embStorageHash inputText modelName
  if tbl.any (fun r => r.inputHash == hash && r.modelName == modelName) then
    tbl.map (fun r =>
      if r.inputHash == hash && r.modelName == modelName then
        { r with embedding := emb }
      else r)
  else tbl ++ [{ inputHash := hash, inputText := inputText,
                 modelName := modelName, embedding := emb }]

/-- Translation of `Postgres.GetEmbedding`: `WHERE input_hash = $1 AND
model_name = $2`; no rows gives `ErrNoRows`. -/
def dbGetEmbedding (tbl : List EmbeddingRecord) (inputText modelName : String) :
    Tier2Res EmbeddingRecord :=
  match tbl.find? (fun r =>
      r.inputHash = embStorageHash inputText modelName ∧
      r.modelName = modelName) with
  | some r => .row r
  | none => .noRows

/-- Both tiers of the cache, fault-free.  Redis keys are namespaced
`llm:<hash>` / `embedding:<hash>`, so the two record families never collide;
they are kept as two maps. -/
structure StorageState where
  redisLLM : RedisMap LLMRecord := ([] : List (String × LLMRecord))
  redisEmb : RedisMap EmbeddingRecord := ([] : List (String × EmbeddingRecord))
  pgLLM : List LLMRecord := []
  pgEmb : List EmbeddingRecord := []

/-- Translation of `Storage.GetLLM` over a fault-free state: Redis at
`llm:<MakeHash request>`, read-through to Postgres, Redis backfill on a
Postgres hit.  `modelName` is only logged. -/
def storageGetLLM (s : StorageState) (request modelName : String) :
    GetResult LLMRecord × StorageState :=
  let key := "llm:" ++ MakeHash request
  match redisGetState s.redisLLM key with
  | some r => (.ok (some r), s)
  | none =>
    match dbGetLLM s.pgLLM request with
    | .row r => (.ok (some r), { s with redisLLM := redisSetState s.redisLLM key r })
    | .noRows => (.ok none, s)
    | .dbErr => (.storageErr, s)

/-- Translation of `Storage.UpsertLLM`: Postgres upsert first (which fills
`RequestHash`), then Redis `SET llm:<hash>` with the in-memory record. -/
def storageUpsertLLM (s : StorageState) (q : LLMRecord) :
    StorageState × LLMRecord :=
  let p := dbUpsertLLM s.pgLLM q
  let q2 := p.2
  let hash := if q2.requestHash = "" then MakeHash q2.request else q2.requestHash
  let key := "llm:" ++ hash
  ({ s with pgLLM := p.1, redisLLM := redisSetState s.redisLLM key q2 }, q2)

/-- Translation of `Storage.GetEmbedding` over a fault-free state.  Key
`embedding:<MakeHash (inputText + modelName)>`; note the missing
`ErrNoRows` conversion in `getEmbeddingCore`. -/
def storageGetEmbedding (s : StorageState) (inputText modelName : String) :
    GetResult EmbeddingRecord × StorageState :=
  let key := "embedding:" ++ embStorageHash inputText modelName
  match redisGetState s.redisEmb key with
  | some r => (.ok (some r), s)
  | none =>
    match dbGetEmbedding s.pgEmb inputText modelName with
    | .row r => (.ok (some r), { s with redisEmb := redisSetState s.redisEmb key r })
    | .noRows => (.storageErr, s)
    | .dbErr => (.storageErr, s)

/-- Translation of `Storage.UpsertEmbedding` (storage file): Postgres write,
then Redis `SET embedding:<hash>` of a record holding hash, text, model and
vector. -/
def storageUpsertEmbedding (s : StorageState) (inputText modelName : String)
    (emb : List GoFloat) : StorageState :=
  let hash := embStorageHash inputText modelName
  let key := "embedding:" ++ hash
  let r0 : EmbeddingRecord :=
    { inputHash := hash, inputText := inputText, modelName := modelName,
      embedding := emb }
  { s with pgEmb := pgUpsertEmbeddingRow s.pgEmb inputText modelName emb,
           redisEmb := redisSetState s.redisEmb key r0 }

/-! ## Embedding cache coordinator (internal/proxy/embedding_cache.go)

Request bodies arrive already JSON-decoded: the `input` field as the Go
dynamic value `json.Unmarshal` produces (a string, a `[]string`, or a
`[]interface{}` whose items may fail the string assertion), the rest as the
extracted fields.  `none` for the body models a nil/empty/unparseable
request body, each of which makes the pre-proxy phase skip caching. -/

inductive EmbInputRaw where
  | strSingle (s : String)
  | strArray (xs : List String)
  | anyArray (items : List (Option String))
  | otherType
deriving DecidableEq, Repr

/-- Translation of `extractEmbeddingInputs`: a string becomes the one-element
input list with `originalWasArray = false`; arrays enumerate their items; a
non-string item or a non-string non-array input is an error. -/
def extractEmbeddingInputs : EmbInputRaw →
    Except String (List EmbInputMeta × Bool)
  | .strSingle s => .ok ([⟨0, s⟩], false)
  | .strArray xs => .ok (xs.enum.map (fun p => ⟨p.1, p.2⟩), true)
  | .anyArray items =>
    if items.all (·.isSome) then
      .ok (items.enum.filterMap
        (fun p => p.2.map (fun s => (⟨p.1, s⟩ : EmbInputMeta))), true)
    else .error "invalid input: only string or []string are allowed"
  | .otherType => .error "invalid input: only string or []string are allowed"

/-- The request-body fields the embedding pre-proxy phase reads; `model = ""`
models a missing or non-string model, `input = none` a missing input field. -/
structure EmbRequestBody where
  model : String := ""
  input : Option EmbInputRaw := none
  dimensions : Option Int := none
deriving DecidableEq, Repr

/-- Outcome of one `storage.GetEmbedding` call as the pre-proxy loop sees
it: a record, a not-found `nil`, or an error. -/
inductive EmbLookup where
  | hit (r : EmbeddingRecord)
  | miss
  | fail
deriving DecidableEq, Repr

/-- The cache-query loop of the pre-proxy phase: on the first storage error
the whole request bypasses the cache (`none`); otherwise hits keep their
original index in the `hits` map and misses are collected in order. -/
def collectEmbHits (lookup : String → EmbLookup) :
    List EmbInputMeta → Option (List (Nat × EmbeddingRecord) × List EmbInputMeta)
  | [] => some ([], [])
  | i :: rest =>
    match lookup i.value with
    | .fail => none
    | .hit r =>
      (collectEmbHits lookup rest).map (fun p => ((i.index, r) :: p.1, p.2))
    | .miss =>
      (collectEmbHits lookup rest).map (fun p => (p.1, i :: p.2))

/-- Lookup in the Go `hits` map (original index → record). -/
def hitsLookup (hits : List (Nat × EmbeddingRecord)) (i : Nat) :
    Option EmbeddingRecord :=
  (hits.find? (fun p => p.1 = i)).map (·.2)

/-- The rewritten `input` value sent upstream. -/
inductive EmbInputPayload where
  | singleVal (s : String)
  | arrayVal (vs : List String)
deriving DecidableEq, Repr

/-- Translation of `buildMissInputPayload`: a bare string when the original
input was not an array and exactly one miss remains, else the array of miss
values. -/
def buildMissInputPayload (misses : List EmbInputMeta)
    (originalWasArray : Bool) : EmbInputPayload :=
  if originalWasArray = false ∧ misses.length = 1 then
    .singleVal ((misses.headD ⟨0, ""⟩).value)
  else .arrayVal (misses.map (·.value))

structure EmbDatum where
  object : String
  index : Int
  embedding : List GoFloat
deriving DecidableEq, Repr

structure EmbUsage where
  promptTokens : Int
  totalTokens : Int
deriving DecidableEq, Repr

/-- Translation of `embeddingAPIResponse` (the fields the coordinator reads
and writes). -/
structure EmbResponse where
  id : String := ""
  object : String := ""
  created : Nat := 0
  model : String := ""
  data : List EmbDatum := []
  usage : Option EmbUsage := none
deriving DecidableEq, Repr

/-- Translation of `marshalEmbeddingResponseFromRecords`: data in input
order restricted to hits, token counts summed from the cached records;
`genId` stands for the generated `emb-<uuid>` id. -/
def marshalEmbeddingResponseFromRecords (genId : String) (now : Nat)
    (model : String) (inputs : List EmbInputMeta)
    (hits : List (Nat × EmbeddingRecord)) : EmbResponse :=
  let data := inputs.filterMap (fun i =>
    (hitsLookup hits i.index).map (fun r =>
      ({ object := "embedding", index := (i.index : Int),
         embedding := r.embedding } : EmbDatum)))
  let totalTokens := inputs.foldl (fun acc i =>
    match hitsLookup hits i.index with
    | some r => acc + r.tokenCount.getD 0
    | none => acc) 0
  { id := genId, object := "list", created := now, model := model,
    data := data, usage := some ⟨totalTokens, totalTokens⟩ }

/-- Header map with `http.Header.Set` semantics. -/
def headerSet (hs : List (String × String)) (k v : String) :
    List (String × String) :=
  (k, v) :: hs.filter (fun p => p.1 ≠ k)

def headerGet (hs : List (String × String)) (k : String) : Option String :=
  (hs.find? (fun p => p.1 = k)).map (·.2)

def headerDel (hs : List (String × String)) (k : String) :
    List (String × String) :=
  hs.filter (fun p => p.1 ≠ k)

/-- Outcome of `Handler.handleEmbeddingCachePreProxy` together with the
headers written to the client response writer.  `notHandled` is the
`(false, nil)` return with the request forwarded unchanged; `served` is the
`(true, nil)` all-hit return, after which `ServeHTTP` returns without
invoking the reverse proxy. -/
inductive EmbPreOutcome where
  | notHandled
  | bypassed
  | served (resp : EmbResponse)
  | rewritten (newInput : EmbInputPayload) (meta : EmbeddingCacheMetadata)
deriving DecidableEq, Repr

structure EmbPreResult where
  outcome : EmbPreOutcome
  wHeaders : List (String × String) := []
deriving DecidableEq, Repr

/-- Translation of `Handler.handleEmbeddingCachePreProxy`. -/
def handleEmbeddingCachePreProxy (lookup : String → EmbLookup)
    (body : Option EmbRequestBody) (requestID genId : String) (now : Nat) :
    EmbPreResult :=
  match body with
  | none => ⟨.notHandled, []⟩
  | some b =>
    if b.model = "" then ⟨.notHandled, []⟩
    else
      match b.input with
      | none => ⟨.notHandled, []⟩
      | some raw =>
        match extractEmbeddingInputs raw with
        | .error _ => ⟨.notHandled, []⟩
        | .ok (inputs, wasArray) =>
          if inputs.length = 0 then ⟨.notHandled, []⟩
          else
            match collectEmbHits lookup inputs with
            | none => ⟨.bypassed, headerSet [] "X-Embedding-Cache" "BYPASS"⟩
            | some (hits, misses) =>
              if misses.isEmpty then
                ⟨.served (marshalEmbeddingResponseFromRecords genId now
                    b.model inputs hits),
                 headerSet (headerSet [] "Content-Type" "application/json")
                   "X-Embedding-Cache" "HIT"⟩
              else
                ⟨.rewritten (buildMissInputPayload misses wasArray)
                  ⟨b.model, inputs.length, hits, misses, b.dimensions,
                   now, requestID⟩, []⟩

/-- Whether `ServeHTTP` goes on to call the reverse proxy (and hence the
upstream) after the embedding pre-proxy phase: only a `served` outcome
returns early. -/
def embUpstreamCalled : EmbPreOutcome → Bool
  | .served _ => false
  | _ => true

/-- The persistence loop over the upstream `data` array.  `data[k].index`
selects the k-th miss; out-of-range indexes and empty miss values are
skipped; a failed upsert keeps the datum out of `newRecords`.  Returns the
`newRecords` map (original index → record) and the list of persisted
records.  (When exactly one datum returned, Go reads
`payload.Usage.TotalTokens` for its token count — modelled with 0 for an
absent usage.) -/
def upsertMisses (persist : EmbeddingRecord → Bool)
    (meta : EmbeddingCacheMetadata) (payload : EmbResponse) (endTime : Nat) :
    (Nat → Option EmbeddingRecord) × List EmbeddingRecord :=
  let singleRecordTokens : Int :=
    if payload.data.length = 1 then
      match payload.usage with
      | some u => u.totalTokens
      | none => 0
    else 0
  payload.data.foldl (fun acc d =>
    if d.index < 0 ∨ (meta.misses.length : Int) ≤ d.index then acc
    else
      let missEntry := meta.misses.getD d.index.toNat ⟨0, ""⟩
      if missEntry.value = "" then acc
      else
        let r0 : EmbeddingRecord :=
          { requestId := meta.requestID, inputText := missEntry.value,
            modelName := meta.model, dimensions := meta.dimensions,
            embedding := d.embedding, tokenCount := some singleRecordTokens,
            startTime := some meta.startTime, endTime := some endTime }
        if persist r0 then
          ((fun j => if j = missEntry.index then some r0 else acc.1 j),
           acc.2 ++ [r0])
        else acc)
    ((fun _ => none), [])

/-- Record chosen for original index `i` in the merge loop: the hit map
first, then the new-record map. -/
def mergePick (hits : List (Nat × EmbeddingRecord))
    (news : Nat → Option EmbeddingRecord) (i : Nat) : Option EmbeddingRecord :=
  match hitsLookup hits i with
  | some r => some r
  | none => news i

/-- The merge loop of the post phase: for `i` in `0..total-1`, take the hit
record else the new record, skip absent entries, and emit a datum at index
`i`. -/
def mergeCombined (hits : List (Nat × EmbeddingRecord))
    (news : Nat → Option EmbeddingRecord) (total : Nat) (obj : String) :
    List EmbDatum :=
  (List.range total).filterMap (fun i =>
    (mergePick hits news i).map (fun r =>
      ({ object := obj, index := (i : Int), embedding := r.embedding } :
        EmbDatum)))

/-- Token sum accumulated by the merge loop. -/
def combinedTokens (hits : List (Nat × EmbeddingRecord))
    (news : Nat → Option EmbeddingRecord) (total : Nat) : Int :=
  (List.range total).foldl (fun acc i =>
    match mergePick hits news i with
    | some r => acc + r.tokenCount.getD 0
    | none => acc) 0

/-- Translation of `firstNonEmpty`. -/
def firstNonEmpty (xs : List String) : String :=
  match xs.find? (fun v => v.trim ≠ "") with
  | some v => v
  | none => ""

/-- Translation of `embeddingAPIResponse.DataObject`. -/
def payloadDataObject (p : EmbResponse) : String :=
  match p.data with
  | [] => ""
  | d :: _ => d.object

inductive EmbPostResult where
  | missPassthrough
  | errored
  | replaced (resp : EmbResponse) (cacheStatus : String)
      (persisted : List EmbeddingRecord)
deriving DecidableEq, Repr

/-- Translation of `Handler.handleEmbeddingCachePostResponse`.  `bodyPresent
= false` models a nil response body; `parsed = none` a read/decompress/parse
failure of the upstream body (the function returns the error); otherwise the
merged payload replaces the body and `X-Embedding-Cache` is set to the
computed status. -/
def handleEmbeddingCachePostResponse (persist : EmbeddingRecord → Bool)
    (meta : EmbeddingCacheMetadata) (status : Nat) (bodyPresent : Bool)
    (parsed : Option EmbResponse) (endTime : Nat) : EmbPostResult :=
  if status ≠ 200 ∨ bodyPresent = false then .missPassthrough
  else
    match parsed with
    | none => .errored
    | some payload =>
      let r := upsertMisses persist meta payload endTime
      let news := r.1
      let persistedList := r.2
      let obj0 := payloadDataObject payload
      let obj := if obj0 = "" then "embedding" else obj0
      let combined := mergeCombined meta.hits news meta.total obj
      let tokens := combinedTokens meta.hits news meta.total +
        (match payload.usage with
         | some u => u.totalTokens
         | none => 0)
      let outResp : EmbResponse :=
        { id := payload.id, object := payload.object, created := endTime,
          model := firstNonEmpty [payload.model, meta.model],
          data := combined,
          usage := if 0 ≤ tokens then some ⟨tokens, tokens⟩ else none }
      let cacheStatus :=
        if 0 < meta.hits.length ∧ 0 < persistedList.length then "PARTIAL"
        else if 0 < meta.hits.length then "HIT"
        else "MISS"
      .replaced outResp cacheStatus persistedList

/-! ## LLM cache coordinator (LLM cache file)

The request body arrives both raw (`rawBody`, the exact bytes, which are the
cache key) and as the decoded fields the pre-proxy phase extracts.  A
`stream` field that decodes to a non-bool and a `stream` equal to `true`
both make the phase return before any storage lookup. -/

inductive StreamField where
  | asBool (b : Bool)
  | notBool
deriving DecidableEq, Repr

/-- The request-body fields the LLM pre-proxy phase reads; a failed
`json.Unmarshal` leaves every field absent. -/
structure LLMRequestBody where
  stream : Option StreamField := none
  model : String := ""
  temperature : Option Rat := none
  maxTokens : Option Int := none
deriving DecidableEq, Repr

/-- Result of `Handler.handleLLMCachePreProxy`, with the headers and body
written on a hit and the trace of `storage.GetLLM` calls (by their
`request` argument). -/
structure LLMPreResult where
  handled : Bool
  meta : Option LLMCacheMetadata
  wHeaders : List (String × String) := []
  servedBody : Option String := none
  lookups : List String := []
deriving DecidableEq, Repr

/-- Translation of `Handler.handleLLMCachePreProxy`.  `rawBody = none`
models a nil body or a read error; the stream checks precede the model check
and the storage lookup; a storage error is logged and treated as a miss; a
hit with a non-empty stored response is written back and terminates the
request. -/
def handleLLMCachePreProxy (lookup : String → GetResult LLMRecord)
    (rawBody : Option String) (payload : LLMRequestBody)
    (requestID : String) (now : Nat) : LLMPreResult :=
  match rawBody with
  | none => ⟨false, none, [], none, []⟩
  | some bodyStr =>
    if bodyStr = "" then ⟨false, none, [], none, []⟩
    else
      match payload.stream with
      | some .notBool => ⟨false, none, [], none, []⟩
      | some (.asBool true) => ⟨false, none, [], none, []⟩
      | _ =>
        if payload.model = "" then ⟨false, none, [], none, []⟩
        else
          let meta0 : LLMCacheMetadata :=
            { prompt := bodyStr, model := payload.model,
              temperature := payload.temperature,
              maxTokens := payload.maxTokens, stream := false,
              startTime := now, requestID := requestID }
          match lookup bodyStr with
          | .ok (some r) =>
            if r.response = "" then ⟨false, some meta0, [], none, [bodyStr]⟩
            else
              ⟨true, none,
               headerSet (headerSet [] "Content-Type" "application/json")
                 "X-LLM-Cache" "HIT",
               some r.response, [bodyStr]⟩
          | _ => ⟨false, some meta0, [], none, [bodyStr]⟩

/-- The upstream response as `Handler.handleLLMCachePostResponse` sees it.
The body is the opaque byte string of the upstream payload. -/
structure HttpRespState where
  status : Nat
  body : Option String := none
  headers : List (String × String) := []
  contentLength : Int := 0
deriving DecidableEq, Repr

/-- Effect trace of the LLM post phase. -/
structure LLMPostTrace where
  bodyRead : Bool := false
  upserts : List LLMRecord := []
deriving DecidableEq, Repr

/-- Translation of `strings.Contains(strings.ToLower(enc), "gzip")`. -/
def containsGzip (enc : String) : Bool :=
  1 < (enc.toLower.splitOn "gzip").length

/-- Translation of `Handler.handleLLMCachePostResponse`.  External effects
appear as parameters: `gunzip` (nil on a gzip reader/copy failure),
`utf8valid` (`utf8.Valid`), `parseUsage` (`json.Unmarshal` of the usage
object; `none` is a parse error, which leaves all token fields nil),
`ensureJSON` (`ensureJSONFormat`, total because its fallback wraps the
input), `upsertOk` (whether `storage.UpsertLLM` succeeds).

The non-200 / nil-body test precedes the `X-LLM-Cache: MISS` header write:
on that path the function returns with the response untouched, the body
unread and nothing cached. -/
def handleLLMCachePostResponse (gunzip : String → Option String)
    (utf8valid : String → Bool)
    (parseUsage : String → Option (Option Int × Option Int × Option Int))
    (ensureJSON : String → String) (upsertOk : LLMRecord → Bool)
    (resp : HttpRespState) (meta : LLMCacheMetadata) (endTime : Nat) :
    HttpRespState × LLMPostTrace :=
  if resp.status ≠ 200 ∨ resp.body = none then (resp, {})
  else
    let hs1 := headerSet resp.headers "X-LLM-Cache" "MISS"
    let bodyStr := resp.body.getD ""
    let resp2 :=
      if 0 < bodyStr.length then
        { resp with
          headers := (headerSet hs1 "Content-Length" (toString bodyStr.length)),
          contentLength := (bodyStr.length : Int) }
      else
        { resp with
          headers := (headerDel hs1 "Content-Length"),
          contentLength := 0 }
    let enc := (headerGet resp.headers "Content-Encoding").getD ""
    let bodyToStore :=
      if enc ≠ "" ∧ containsGzip enc then (gunzip bodyStr).getD bodyStr
      else bodyStr
    if utf8valid bodyToStore = false then (resp2, { bodyRead := true })
    else
      let usage := (parseUsage bodyToStore).getD (none, none, none)
      let r0 : LLMRecord :=
        { requestId := meta.requestID, request := ensureJSON meta.prompt,
          modelName := meta.model, temperature := meta.temperature,
          maxTokens := meta.maxTokens, response := ensureJSON bodyToStore,
          totalTokens := usage.1, promptTokens := usage.2.1,
          completionTokens := usage.2.2,
          startTime := some meta.startTime, endTime := some endTime }
      let hsFinal :=
        if upsertOk r0 then headerSet resp2.headers "X-LLM-Cache" "MISS"
        else resp2.headers
      ({ resp2 with headers := hsFinal },
       { bodyRead := true, upserts := [r0] })

/-! ## Helper lemmas -/

theorem beBytes_length (n v : Nat) : (beBytes n v).length = n := by
  simp [beBytes]

theorem compress_length (hv block : List Nat) : (compress hv block).length = 8 :=
  rfl

theorem foldl_compress_length (bs : List (List Nat)) (hv : List Nat)
    (h : hv.length = 8) : (bs.foldl compress hv).length = 8 := by
  induction bs generalizing hv with
  | nil => simpa using h
  | cons b bs ih => exact ih _ (compress_length _ _)

theorem flatten_beBytes_length (l : List Nat) :
    ((l.map (beBytes 4)).flatten).length = 4 * l.length := by
  induction l with
  | nil => simp
  | cons x xs ih =>
    simp [List.flatten_cons, ih, beBytes_length]
    ring

theorem sha256_length (msg : List Nat) : (sha256 msg).length = 32 := by
  unfold sha256
  rw [flatten_beBytes_length, foldl_compress_length _ _ (by rfl)]

theorem flatten_hexPairs_length (l : List Nat) :
    ((l.map (fun b => [hexDigit (b / 16), hexDigit (b % 16)])).flatten).length =
      2 * l.length := by
  induction l with
  | nil => simp
  | cons x xs ih =>
    simp [List.flatten_cons, ih]
    ring

theorem MakeHash_length (s : String) : (MakeHash s).length = 64 := by
  show ((bytesToHex (sha256 (strBytes s))).length = 64)
  unfold bytesToHex
  rw [show ∀ l : List Char, (String.mk l).length = l.length from fun _ => rfl]
  rw [flatten_hexPairs_length, sha256_length]

theorem MakeHash_ne_empty (s : String) : MakeHash s ≠ "" := by
  intro h
  have h64 := MakeHash_length s
  rw [h] at h64
  simp at h64

theorem redisGet_set_same {α : Type} (m : RedisMap α) (k : String) (v : α) :
    redisGetState (redisSetState m k v) k = some v := by
  simp [redisGetState, redisSetState, List.find?]

theorem llmConflictMatch_update (r q : LLMRecord) :
    llmConflictMatch (llmApplyUpdate r q) q = llmConflictMatch r q := rfl

theorem llmConflictMatch_self (q : LLMRecord) : llmConflictMatch q q = true := by
  simp [llmConflictMatch]

theorem pgUpsertLLMRow_mem (tbl : List LLMRecord) (q : LLMRecord) :
    (pgUpsertLLMRow tbl q).any (fun r => llmConflictMatch r q) = true := by
  unfold pgUpsertLLMRow
  by_cases h : tbl.any (fun r => llmConflictMatch r q) = true
  · rw [if_pos h]
    rcases List.any_eq_true.mp h with ⟨r, hr, hm⟩
    apply List.any_eq_true.mpr
    refine ⟨if llmConflictMatch r q then llmApplyUpdate r q else r,
      List.mem_map.mpr ⟨r, hr, rfl⟩, ?_⟩
    rw [if_pos hm, llmConflictMatch_update]
    exact hm
  · rw [if_neg h]
    apply List.any_eq_true.mpr
    exact ⟨q, List.mem_append_right _ (List.mem_singleton.mpr rfl),
      llmConflictMatch_self q⟩

theorem pgUpsertLLMRow_length_of_any (tbl : List LLMRecord) (q : LLMRecord)
    (h : tbl.any (fun r => llmConflictMatch r q) = true) :
    (pgUpsertLLMRow tbl q).length = tbl.length := by
  unfold pgUpsertLLMRow
  rw [if_pos h, List.length_map]

/-- Whether a lookup outcome is a miss. -/
def isMissB : EmbLookup → Bool
  | .miss => true
  | _ => false

/-- The misses the pre-proxy loop collects: inputs whose lookup missed, in
original order with original indices. -/
def missesOf (lookup : String → EmbLookup) (inputs : List EmbInputMeta) :
    List EmbInputMeta :=
  inputs.filter (fun i => isMissB (lookup i.value))

/-- The hits the pre-proxy loop collects, keyed by original index. -/
def hitsOf (lookup : String → EmbLookup) (inputs : List EmbInputMeta) :
    List (Nat × EmbeddingRecord) :=
  inputs.filterMap (fun i =>
    match lookup i.value with
    | .hit r => some (i.index, r)
    | _ => none)

/-- The index/value table produced for an array input. -/
def inputsOfArray (xs : List String) : List EmbInputMeta :=
  xs.enum.map (fun p => ⟨p.1, p.2⟩)

theorem extract_strArray (xs : List String) :
    extractEmbeddingInputs (.strArray xs) = .ok (inputsOfArray xs, true) := rfl

theorem inputsOfArray_length (xs : List String) :
    (inputsOfArray xs).length = xs.length := by
  simp [inputsOfArray]

theorem collectEmbHits_spec (lookup : String → EmbLookup)
    (inputs : List EmbInputMeta)
    (h : ∀ i ∈ inputs, lookup i.value ≠ .fail) :
    collectEmbHits lookup inputs =
      some (hitsOf lookup inputs, missesOf lookup inputs) := by
  induction inputs with
  | nil => rfl
  | cons i rest ih =>
    have hi := h i (List.mem_cons_self _ _)
    have hrest : ∀ j ∈ rest, lookup j.value ≠ .fail :=
      fun j hj => h j (List.mem_cons_of_mem _ hj)
    cases hl : lookup i.value with
    | fail => exact absurd hl hi
    | hit r =>
      simp [collectEmbHits, hl, ih hrest, hitsOf, missesOf, isMissB,
        List.filterMap_cons, List.filter_cons]
    | miss =>
      simp [collectEmbHits, hl, ih hrest, hitsOf, missesOf, isMissB,
        List.filterMap_cons, List.filter_cons]

theorem mergeCombined_map_index (hits : List (Nat × EmbeddingRecord))
    (news : Nat → Option EmbeddingRecord) (obj : String) (l : List Nat) :
    ((l.filterMap (fun i => (mergePick hits news i).map (fun r =>
        ({ object := obj, index := (i : Int), embedding := r.embedding } :
          EmbDatum)))).map (·.index)) =
      (l.filter (fun i => (mergePick hits news i).isSome)).map
        (fun i => (i : Int)) := by
  induction l with
  | nil => rfl
  | cons a l ih =>
    cases hp : mergePick hits news a with
    | some r => simp [List.filterMap_cons, List.filter_cons, hp, ih]
    | none => simp [List.filterMap_cons, List.filter_cons, hp, ih]

theorem missesOf_eq_nil_of_all_hit (lookup : String → EmbLookup)
    (inputs : List EmbInputMeta)
    (hall : ∀ i ∈ inputs, ∃ r, lookup i.value = .hit r) :
    missesOf lookup inputs = [] := by
  unfold missesOf
  induction inputs with
  | nil => rfl
  | cons i rest ih =>
    obtain ⟨r, hr⟩ := hall i (List.mem_cons_self _ _)
    rw [List.filter_cons, ih (fun j hj => hall j (List.mem_cons_of_mem _ hj))]
    simp [hr, isMissB]

theorem hitsOf_lookup_isSome (lookup : String → EmbLookup)
    (inputs : List EmbInputMeta) (i : EmbInputMeta) (hi : i ∈ inputs)
    (r : EmbeddingRecord) (hr : lookup i.value = .hit r) :
    (hitsLookup (hitsOf lookup inputs) i.index).isSome = true := by
  have hmem : (i.index, r) ∈ hitsOf lookup inputs := by
    unfold hitsOf
    exact List.mem_filterMap.mpr ⟨i, hi, by rw [hr]⟩
  unfold hitsLookup
  cases hf : List.find? (fun p => p.1 = i.index) (hitsOf lookup inputs) with
  | some p => rfl
  | none =>
    have := List.find?_eq_none.mp hf _ hmem
    simp at this

theorem filterMap_hits_map_index (hits : List (Nat × EmbeddingRecord))
    (l : List EmbInputMeta)
    (h : ∀ i ∈ l, (hitsLookup hits i.index).isSome = true) :
    ((l.filterMap (fun i => (hitsLookup hits i.index).map (fun r =>
        ({ object := "embedding", index := (i.index : Int),
           embedding := r.embedding } : EmbDatum)))).map (·.index)) =
      l.map (fun i => (i.index : Int)) := by
  induction l with
  | nil => rfl
  | cons a l ih =>
    have ha := h a (List.mem_cons_self _ _)
    cases hh : hitsLookup hits a.index with
    | none => rw [hh] at ha; simp at ha
    | some r =>
      simp [List.filterMap_cons, hh,
        ih (fun i hi => h i (List.mem_cons_of_mem _ hi))]

/-! ## Claim theorems -/

set_option maxRecDepth 10000 in
/-- C1 counterexample: for input "a" and model "b" the fingerprint computed
on the storage path hashes "ab", which differs from
`MakeEmbeddingCacheKey "a" "b" = SHA256("a|b")`, the derivation the claim
states. -/
theorem embedding_fingerprint_counterexample :
    embStorageHash "a" "b" ≠ MakeEmbeddingCacheKey "a" "b" := by
  decide

/-- C1 (amended): the fingerprint used to store and look up embedding
records is the SHA-256 hex digest of `input_text + model` — concatenation
with no separator: an upsert followed by a lookup of the same `(x, m)` finds
a record whose stored `input_hash` is `MakeHash (x ++ m)`; the key is
deterministic (a function of `(x, m)`); and two lookups that differ only in
the model hash different preimages (hence different keys up to SHA-256
collisions, checked on concrete inputs by the counterexample above). -/
theorem embedding_fingerprint_spec (s : StorageState) (x m m' : String)
    (emb : List GoFloat) (h : m ≠ m') :
    (storageGetEmbedding (storageUpsertEmbedding s x m emb) x m).1 =
      .ok (some { inputHash := MakeHash (x ++ m), inputText := x,
                  modelName := m, embedding := emb }) ∧
    embStorageHash x m = MakeHash (x ++ m) ∧
    x ++ m ≠ x ++ m' := by
  refine ⟨?_, rfl, ?_⟩
  · unfold storageGetEmbedding storageUpsertEmbedding
    simp [redisGet_set_same, embStorageHash]
  · intro hc
    have hd : x.data ++ m.data = x.data ++ m'.data := by
      simpa only [String.data_append] using congrArg String.data hc
    exact h (String.ext (List.append_cancel_left hd))

set_option maxRecDepth 10000 in
/-- C1 witness: the amended statement at `x = "a"`, `m = "b"`, `m' = "c"`. -/
theorem embedding_fingerprint_spec_witness :
    (storageGetEmbedding (storageUpsertEmbedding {} "a" "b" []) "a" "b").1 =
      .ok (some { inputHash := MakeHash ("a" ++ "b"), inputText := "a",
                  modelName := "b", embedding := [] }) ∧
    embStorageHash "a" "b" = MakeHash ("a" ++ "b") ∧
    "a" ++ "b" ≠ "a" ++ "c" :=
  embedding_fingerprint_spec {} "a" "b" "c" [] (by decide)

/-- C2: `Storage.UpsertLLM` of a record whose `request` is `B`, followed by
`Storage.GetLLM (B, M)`, returns the stored record — its `response` is the
stored response bytes — and a repeated upsert of the same record updates the
existing `(request_hash, model_name)` row instead of adding one. -/
theorem llm_upsert_then_get (s : StorageState) (q : LLMRecord) (B M : String)
    (hB : q.request = B) :
    (storageGetLLM (storageUpsertLLM s q).1 B M).1 =
      .ok (some { q with requestHash := MakeHash B }) ∧
    ({ q with requestHash := MakeHash B } : LLMRecord).response = q.response ∧
    (storageUpsertLLM (storageUpsertLLM s q).1 q).1.pgLLM.length =
      (storageUpsertLLM s q).1.pgLLM.length := by
  subst hB
  refine ⟨?_, rfl, ?_⟩
  · unfold storageGetLLM storageUpsertLLM dbUpsertLLM
    simp [redisGet_set_same, MakeHash_ne_empty]
  · show (pgUpsertLLMRow (pgUpsertLLMRow s.pgLLM
        { q with requestHash := MakeHash q.request })
        { q with requestHash := MakeHash q.request }).length =
      (pgUpsertLLMRow s.pgLLM { q with requestHash := MakeHash q.request }).length
    exact pgUpsertLLMRow_length_of_any _ _ (pgUpsertLLMRow_mem _ _)

/-- Concrete record for the C2 witness. -/
def c2WitnessRecord : LLMRecord :=
  { request := "req-body", modelName := "m", response := "ok" }

set_option maxRecDepth 10000 in
/-- C2 witness: a concrete record round-trips through an empty store. -/
theorem llm_upsert_then_get_witness :
    (storageGetLLM (storageUpsertLLM {} c2WitnessRecord).1 "req-body" "m").1 =
      .ok (some { c2WitnessRecord with requestHash := MakeHash "req-body" }) ∧
    ({ c2WitnessRecord with requestHash := MakeHash "req-body" } :
      LLMRecord).response = c2WitnessRecord.response ∧
    (storageUpsertLLM (storageUpsertLLM {} c2WitnessRecord).1
        c2WitnessRecord).1.pgLLM.length =
      (storageUpsertLLM {} c2WitnessRecord).1.pgLLM.length :=
  llm_upsert_then_get {} c2WitnessRecord "req-body" "m" rfl

/-- C3: for an array embeddings request with both hits and misses (and no
storage error), the pre-proxy phase rewrites `input` to exactly the miss
values in their original order (as an array, since the original was an
array) and records the hit and miss tables in the metadata; the post-proxy
merge emits its data entries in strictly increasing original-index order,
exactly over the union of the hit map and the newly persisted records. -/
theorem embedding_split_and_merge
    (lookup : String → EmbLookup) (model : String) (xs : List String)
    (dims : Option Int) (reqId genId : String) (now : Nat)
    (hits : List (Nat × EmbeddingRecord)) (news : Nat → Option EmbeddingRecord)
    (total : Nat) (obj : String)
    (hm : model ≠ "") (hxs : xs ≠ [])
    (hnf : ∀ i ∈ inputsOfArray xs, lookup i.value ≠ .fail)
    (hmiss : missesOf lookup (inputsOfArray xs) ≠ []) :
    handleEmbeddingCachePreProxy lookup
        (some { model := model, input := some (.strArray xs),
                dimensions := dims }) reqId genId now =
      ⟨.rewritten
        (.arrayVal ((missesOf lookup (inputsOfArray xs)).map (·.value)))
        { model := model, total := xs.length,
          hits := hitsOf lookup (inputsOfArray xs),
          misses := missesOf lookup (inputsOfArray xs),
          dimensions := dims, startTime := now, requestID := reqId }, []⟩ ∧
    (mergeCombined hits news total obj).map (·.index) =
      ((List.range total).filter
        (fun i => (mergePick hits news i).isSome)).map (fun i => (i : Int)) ∧
    (∀ i : Nat, (mergePick hits news i).isSome =
      ((hitsLookup hits i).isSome || (news i).isSome)) := by
  refine ⟨?_, ?_, ?_⟩
  · have hempty : (missesOf lookup (inputsOfArray xs)).isEmpty = false := by
      cases hmm : missesOf lookup (inputsOfArray xs) with
      | nil => exact absurd hmm hmiss
      | cons a l => rfl
    have hlen : ¬ (inputsOfArray xs).length = 0 := by
      rw [inputsOfArray_length]
      exact fun h => hxs (List.length_eq_zero.mp h)
    simp only [handleEmbeddingCachePreProxy]
    rw [if_neg hm]
    simp only [extract_strArray]
    rw [if_neg hlen]
    simp only [collectEmbHits_spec _ _ hnf]
    simp [hempty, buildMissInputPayload, inputsOfArray_length]
  · exact mergeCombined_map_index hits news obj (List.range total)
  · intro i
    unfold mergePick
    cases h1 : hitsLookup hits i with
    | some r => simp
    | none => cases h2 : news i <;> simp [h2]

/-- Concrete lookup for the C3/C4 witnesses: "a" is cached, all else
misses. -/
def c3HitRecord : EmbeddingRecord :=
  { inputText := "a", modelName := "m", embedding := [⟨1⟩],
    tokenCount := some 2 }

def c3Lookup : String → EmbLookup := fun v =>
  if v = "a" then .hit c3HitRecord else .miss

/-- C3 witness: inputs `["a", "b"]` with "a" cached and "b" a miss. -/
theorem embedding_split_and_merge_witness :
    handleEmbeddingCachePreProxy c3Lookup
        (some { model := "m", input := some (.strArray ["a", "b"]),
                dimensions := none }) "r" "g" 7 =
      ⟨.rewritten
        (.arrayVal ((missesOf c3Lookup (inputsOfArray ["a", "b"])).map
          (·.value)))
        { model := "m", total := (["a", "b"] : List String).length,
          hits := hitsOf c3Lookup (inputsOfArray ["a", "b"]),
          misses := missesOf c3Lookup (inputsOfArray ["a", "b"]),
          dimensions := none, startTime := 7, requestID := "r" }, []⟩ ∧
    (mergeCombined [] (fun _ => none) 2 "embedding").map (·.index) =
      ((List.range 2).filter
        (fun i => (mergePick [] (fun _ => none) i).isSome)).map
        (fun i => (i : Int)) ∧
    (∀ i : Nat, (mergePick [] (fun _ => none) i).isSome =
      ((hitsLookup [] i).isSome || ((fun _ => none :
        Nat → Option EmbeddingRecord) i).isSome)) :=
  embedding_split_and_merge c3Lookup "m" ["a", "b"] none "r" "g" 7
    [] (fun _ => none) 2 "embedding"
    (by decide) (by decide)
    (by intro i hi
        fin_cases hi <;> simp [c3Lookup])
    (by intro h
        exact List.noConfusion
          (show ([(⟨1, "b"⟩ : EmbInputMeta)] : List EmbInputMeta) = [] from h))

/-- C4: when every input of the embeddings request is a cache hit, the
pre-proxy phase serves a synthesized embeddings-shaped response covering
every input in order, sets `X-Embedding-Cache: HIT`, and terminates the
request — the reverse proxy (and hence the upstream) is never invoked. -/
theorem embedding_all_hits_served (lookup : String → EmbLookup)
    (b : EmbRequestBody) (raw : EmbInputRaw) (inputs : List EmbInputMeta)
    (wasArray : Bool) (reqId genId : String) (now : Nat)
    (hm : b.model ≠ "") (hraw : b.input = some raw)
    (hex : extractEmbeddingInputs raw = .ok (inputs, wasArray))
    (hne : inputs ≠ [])
    (hall : ∀ i ∈ inputs, ∃ r, lookup i.value = .hit r) :
    handleEmbeddingCachePreProxy lookup (some b) reqId genId now =
      ⟨.served (marshalEmbeddingResponseFromRecords genId now b.model inputs
          (hitsOf lookup inputs)),
       [("X-Embedding-Cache", "HIT"), ("Content-Type", "application/json")]⟩ ∧
    embUpstreamCalled (.served (marshalEmbeddingResponseFromRecords genId now
        b.model inputs (hitsOf lookup inputs))) = false ∧
    (marshalEmbeddingResponseFromRecords genId now b.model inputs
        (hitsOf lookup inputs)).data.map (·.index) =
      inputs.map (fun i => (i.index : Int)) := by
  have hnf : ∀ i ∈ inputs, lookup i.value ≠ .fail := by
    intro i hi hcon
    obtain ⟨r, hr⟩ := hall i hi
    rw [hr] at hcon
    cases hcon
  have hmiss : missesOf lookup inputs = [] :=
    missesOf_eq_nil_of_all_hit lookup inputs hall
  have hlen : ¬ inputs.length = 0 :=
    fun h => hne (List.length_eq_zero.mp h)
  refine ⟨?_, rfl, ?_⟩
  · simp only [handleEmbeddingCachePreProxy]
    rw [if_neg hm]
    simp only [hraw, hex]
    rw [if_neg hlen]
    simp only [collectEmbHits_spec _ _ hnf]
    simp [hmiss, headerSet]
  · show ((inputs.filterMap (fun i =>
        (hitsLookup (hitsOf lookup inputs) i.index).map (fun r =>
          ({ object := "embedding", index := (i.index : Int),
             embedding := r.embedding } : EmbDatum)))).map (·.index)) =
      inputs.map (fun i => (i.index : Int))
    apply filterMap_hits_map_index
    intro i hi
    obtain ⟨r, hr⟩ := hall i hi
    exact hitsOf_lookup_isSome lookup inputs i hi r hr

/-- C4 witness: both inputs of `["a"]` cached; the request is served and
upstream is not called. -/
theorem embedding_all_hits_served_witness :
    handleEmbeddingCachePreProxy c3Lookup
        (some { model := "m", input := some (.strArray ["a"]),
                dimensions := none }) "r" "g" 7 =
      ⟨.served (marshalEmbeddingResponseFromRecords "g" 7 "m"
          (inputsOfArray ["a"]) (hitsOf c3Lookup (inputsOfArray ["a"]))),
       [("X-Embedding-Cache", "HIT"), ("Content-Type", "application/json")]⟩ ∧
    embUpstreamCalled (.served (marshalEmbeddingResponseFromRecords "g" 7 "m"
        (inputsOfArray ["a"]) (hitsOf c3Lookup (inputsOfArray ["a"])))) =
      false ∧
    (marshalEmbeddingResponseFromRecords "g" 7 "m" (inputsOfArray ["a"])
        (hitsOf c3Lookup (inputsOfArray ["a"]))).data.map (·.index) =
      (inputsOfArray ["a"]).map (fun i => (i.index : Int)) :=
  embedding_all_hits_served c3Lookup
    { model := "m", input := some (.strArray ["a"]), dimensions := none }
    (.strArray ["a"]) (inputsOfArray ["a"]) true "r" "g" 7
    (by decide) rfl rfl (by decide)
    (by intro i hi
        fin_cases hi
        exact ⟨c3HitRecord, by simp [c3Lookup]⟩)

/-- C5: a `/chat/completions` request whose parsed `stream` field is `true`,
or is present with a non-boolean value, bypasses the LLM cache entirely: the
pre-proxy phase returns unhandled with no metadata, having performed no
storage lookup; with no metadata attached, the post-proxy dispatch finds no
cache value in the context and runs no hook, so nothing is persisted. -/
theorem llm_stream_bypass (lookup : String → GetResult LLMRecord)
    (bodyStr : String) (payload : LLMRequestBody) (reqId : String) (now : Nat)
    (hbody : bodyStr ≠ "")
    (hstream : payload.stream = some (.asBool true) ∨
      payload.stream = some .notBool) :
    handleLLMCachePreProxy lookup (some bodyStr) payload reqId now =
      ⟨false, none, [], none, []⟩ ∧
    modifyResponseDispatch ([] : Ctx) = .noHook := by
  refine ⟨?_, rfl⟩
  simp only [handleLLMCachePreProxy]
  rw [if_neg hbody]
  rcases hstream with h | h <;> rw [h]

/-- C5 witness: a body with `stream: true` and one with a non-bool `stream`. -/
theorem llm_stream_bypass_witness :
    (handleLLMCachePreProxy (fun _ => .storageErr) (some "stream-body")
        { stream := some (.asBool true), model := "gpt-4" } "r" 3 =
      ⟨false, none, [], none, []⟩ ∧
    modifyResponseDispatch ([] : Ctx) = .noHook) ∧
    (handleLLMCachePreProxy (fun _ => .storageErr) (some "stream-body")
        { stream := some .notBool, model := "gpt-4" } "r" 3 =
      ⟨false, none, [], none, []⟩ ∧
    modifyResponseDispatch ([] : Ctx) = .noHook) :=
  ⟨llm_stream_bypass (fun _ => .storageErr) "stream-body"
      { stream := some (.asBool true), model := "gpt-4" } "r" 3
      (by decide) (Or.inl rfl),
   llm_stream_bypass (fun _ => .storageErr) "stream-body"
      { stream := some .notBool, model := "gpt-4" } "r" 3
      (by decide) (Or.inr rfl)⟩

theorem find?_filter_ne (hs : List (String × String)) (k k' : String)
    (h : k ≠ k') :
    List.find? (fun p => p.1 = k) (hs.filter (fun p => p.1 ≠ k')) =
      List.find? (fun p => p.1 = k) hs := by
  induction hs with
  | nil => rfl
  | cons a t ih =>
    by_cases ha : a.1 = k
    · have ha' : (a.1 ≠ k') := by rw [ha]; exact h
      rw [List.filter_cons, if_pos (by simpa using ha')]
      rw [List.find?_cons_of_pos _ (by simpa using ha),
        List.find?_cons_of_pos _ (by simpa using ha)]
    · by_cases ha2 : a.1 = k'
      · rw [List.filter_cons, if_neg (by simpa using ha2)]
        rw [ih, List.find?_cons_of_neg _ (by simpa using ha)]
      · rw [List.filter_cons, if_pos (by simpa using ha2)]
        rw [List.find?_cons_of_neg _ (by simpa using ha),
          List.find?_cons_of_neg _ (by simpa using ha), ih]

theorem headerGet_set_same (hs : List (String × String)) (k v : String) :
    headerGet (headerSet hs k v) k = some v := by
  simp [headerGet, headerSet, List.find?]

theorem headerGet_set_other (hs : List (String × String)) (k' v k : String)
    (h : k ≠ k') :
    headerGet (headerSet hs k' v) k = headerGet hs k := by
  unfold headerGet headerSet
  rw [List.find?_cons_of_neg _ (by simpa using fun hh => h hh.symm)]
  rw [find?_filter_ne hs k k' h]

theorem headerGet_del_other (hs : List (String × String)) (k' k : String)
    (h : k ≠ k') :
    headerGet (headerDel hs k') k = headerGet hs k := by
  unfold headerGet headerDel
  rw [find?_filter_ne hs k k' h]

theorem headerGet_set_contentLength (hs : List (String × String)) (v : String) :
    headerGet (headerSet hs "Content-Length" v) "X-LLM-Cache" =
      headerGet hs "X-LLM-Cache" :=
  headerGet_set_other hs "Content-Length" v "X-LLM-Cache" (by decide)

theorem headerGet_del_contentLength (hs : List (String × String)) :
    headerGet (headerDel hs "Content-Length") "X-LLM-Cache" =
      headerGet hs "X-LLM-Cache" :=
  headerGet_del_other hs "Content-Length" "X-LLM-Cache" (by decide)

/-- C6 counterexample: on a non-200 upstream response the LLM post phase
returns before the header write, so `X-LLM-Cache` is never set to `MISS` —
the response leaves the phase without the header the claim requires. -/
theorem llm_post_non200_header_counterexample :
    headerGet ((handleLLMCachePostResponse (fun _ => none) (fun _ => true)
        (fun _ => none) (fun s => s) (fun _ => true)
        { status := 500, body := some "x" } { prompt := "p", model := "m" }
        0).1.headers) "X-LLM-Cache" = none := rfl

/-- C6 (amended): the LLM post phase sets `X-LLM-Cache: MISS` only on a
200-status response with a body; on non-200 status or nil body it stops
first — response untouched, body unread, nothing cached. -/
theorem llm_post_phase_spec (gunzip : String → Option String)
    (utf8valid : String → Bool)
    (parseUsage : String → Option (Option Int × Option Int × Option Int))
    (ensureJSON : String → String) (upsertOk : LLMRecord → Bool)
    (resp : HttpRespState) (meta : LLMCacheMetadata) (endTime : Nat) :
    ((resp.status ≠ 200 ∨ resp.body = none) →
      handleLLMCachePostResponse gunzip utf8valid parseUsage ensureJSON
        upsertOk resp meta endTime =
        (resp, { bodyRead := false, upserts := [] })) ∧
    (resp.status = 200 → resp.body ≠ none →
      headerGet (handleLLMCachePostResponse gunzip utf8valid parseUsage
        ensureJSON upsertOk resp meta endTime).1.headers "X-LLM-Cache" =
        some "MISS") := by
  constructor
  · intro h
    unfold handleLLMCachePostResponse
    rw [if_pos h]
  · intro h200 hbody
    unfold handleLLMCachePostResponse
    rw [if_neg (not_or.mpr ⟨not_not_intro h200, hbody⟩)]
    by_cases hb : 0 < (resp.body.getD "").length <;>
      by_cases hu : utf8valid (if (headerGet resp.headers
          "Content-Encoding").getD "" ≠ "" ∧
          containsGzip ((headerGet resp.headers "Content-Encoding").getD "")
        then (gunzip (resp.body.getD "")).getD (resp.body.getD "")
        else resp.body.getD "") = false <;>
      simp only [hb, hu, if_pos, if_neg, ite_true, ite_false, if_true,
        if_false] <;>
      simp [hb, hu, headerGet_set_same, headerGet_set_contentLength,
        headerGet_del_contentLength, apply_ite
          (fun hs => headerGet hs "X-LLM-Cache")]

/-- C6 witness: the amended statement at a 500 response and at a 200
response. -/
theorem llm_post_phase_spec_witness :
    (handleLLMCachePostResponse (fun _ => none) (fun _ => true)
        (fun _ => none) (fun s => s) (fun _ => true)
        { status := 500, body := some "x" } { prompt := "p", model := "m" }
        0 = ({ status := 500, body := some "x" },
          { bodyRead := false, upserts := [] })) ∧
    headerGet ((handleLLMCachePostResponse (fun _ => none) (fun _ => true)
        (fun _ => none) (fun s => s) (fun _ => true)
        { status := 200, body := some "x" } { prompt := "p", model := "m" }
        0).1.headers) "X-LLM-Cache" = some "MISS" :=
  ⟨(llm_post_phase_spec (fun _ => none) (fun _ => true) (fun _ => none)
      (fun s => s) (fun _ => true) { status := 500, body := some "x" }
      { prompt := "p", model := "m" } 0).1 (Or.inl (by decide)),
   (llm_post_phase_spec (fun _ => none) (fun _ => true) (fun _ => none)
      (fun s => s) (fun _ => true) { status := 200, body := some "x" }
      { prompt := "p", model := "m" } 0).2 rfl (by simp)⟩

/-- C7 counterexample: a cache read of an embedding absent from both tiers —
tier-1 misses and tier-2 reports `ErrNoRows` — returns an error, not the nil
record the claim requires. -/
theorem storage_getEmbedding_notFound_is_error :
    (storageGetEmbedding {} "x" "m").1 = .storageErr ∧
    (storageGetEmbedding {} "x" "m").1 ≠ .ok none := by
  constructor
  · rfl
  · intro h
    exact GetResult.noConfusion
      (show (GetResult.storageErr : GetResult EmbeddingRecord) = .ok none from h)

/-- C7 (amended): a tier-1 failure never fails a read — both `GetLLM` and
`GetEmbedding` branch to tier-2 exactly as on a tier-1 miss and return
tier-2's result; a tier-2 not-found is a nil-record signal for `GetLLM`, but
for `GetEmbedding` (which has no `pgx.ErrNoRows` test) it propagates as an
error. -/
theorem storage_tier1_degradation (t2l : Tier2Res LLMRecord)
    (t2e : Tier2Res EmbeddingRecord) :
    getLLMCore .fail t2l = getLLMCore .miss t2l ∧
    getEmbeddingCore .fail t2e = getEmbeddingCore .miss t2e ∧
    getLLMCore (α := LLMRecord) .miss .noRows = .ok none ∧
    getLLMCore (α := LLMRecord) .fail .noRows = .ok none ∧
    getEmbeddingCore (α := EmbeddingRecord) .miss .noRows = .storageErr := by
  refine ⟨?_, ?_, rfl, rfl, rfl⟩
  · cases t2l <;> rfl
  · cases t2e <;> rfl

/-- C8: starting from a fresh balancer over a non-empty URL list, the i-th
`GetNext` call (counting from zero, below the uint64 wrap) returns
`urls[i mod len(urls)]`; on an empty list `GetNext` returns the empty
string. -/
theorem roundRobin_getNext_spec (urls : List String) (i : Nat)
    (hne : urls ≠ []) (hi : i < w64) :
    getNextIter (NewRoundRobinLoadBalancer urls) i =
      urls.getD (i % urls.length) "" ∧
    (GetNext (NewRoundRobinLoadBalancer [])).1 = "" := by
  refine ⟨?_, rfl⟩
  have hlen : (NewRoundRobinLoadBalancer urls).urls.length ≠ 0 := by
    simpa [NewRoundRobinLoadBalancer] using
      (fun h => hne (List.length_eq_zero.mp h))
  rw [getNextIter_spec _ _ hlen]
  simp [NewRoundRobinLoadBalancer, Nat.mod_eq_of_lt hi]

/-- C8 witness: three URLs, fifth call (i = 4) returns `urls[4 mod 3]`. -/
theorem roundRobin_getNext_spec_witness :
    getNextIter (NewRoundRobinLoadBalancer ["a", "b", "c"]) 4 =
      (["a", "b", "c"] : List String).getD (4 % 3) "" ∧
    (GetNext (NewRoundRobinLoadBalancer [])).1 = "" :=
  roundRobin_getNext_spec ["a", "b", "c"] 4 (by decide)
    (by simp only [w64]; omega)

/-- C9 counterexample: a resolver failure is absorbed — `ShouldUseProxy`
returns true and the round trip proceeds on the proxied transport, where the
claim requires the failure to propagate; and with only public addresses and
no proxy configured the code still picks the proxied transport object where
the claim requires the direct one. -/
theorem transport_selection_counterexample :
    roundTripTransport (fun _ => .lookupErr) "api.example.com" = .proxied ∧
    specTransportSelection (fun _ => .lookupErr) true "api.example.com" =
      .error () ∧
    roundTripTransport (fun _ => .ok [.v4 8 8 8 8]) "api.example.com" =
      .proxied ∧
    specTransportSelection (fun _ => .ok [.v4 8 8 8 8]) false
      "api.example.com" = .ok .direct := by
  refine ⟨rfl, rfl, rfl, rfl⟩

/-- C9 (amended): the round trip uses the direct transport exactly when
resolution succeeds and some resolved address is private; in every other
case — all-public resolution, or a resolution failure, regardless of whether
an outbound proxy is configured — it uses the proxied transport object
(whose `Proxy` field is non-nil only when `proxy_url` is set). -/
theorem transport_selection_spec (resolve : String → LookupResult)
    (host : String) :
    roundTripTransport resolve host = .direct ↔
      ∃ ips, resolve host = .ok ips ∧ ips.any IsPrivateIP = true := by
  unfold roundTripTransport
  by_cases hs : ShouldUseProxy resolve host = true
  · rw [if_pos hs]
    constructor
    · intro hd
      exact absurd hd (by decide)
    · rintro ⟨ips, hre, hp⟩
      unfold ShouldUseProxy at hs
      rw [hre] at hs
      simp [hp] at hs
  · rw [if_neg hs]
    constructor
    · intro _
      unfold ShouldUseProxy at hs
      cases h : resolve host with
      | lookupErr =>
        rw [h] at hs
        exact absurd rfl hs
      | ok ips =>
        rw [h] at hs
        by_cases hp : ips.any IsPrivateIP = true
        · exact ⟨ips, rfl, hp⟩
        · simp [hp] at hs
    · intro _
      rfl

/-- C10: the two cache context keys are the same empty-struct value, so a
context carries at most one cache-metadata value (storing under either key
shadows the other and serves both lookups); the director's copy of the value
stored under `llmCacheContextKey` into the fresh 900-second context
preserves embedding metadata as well; and `modifyResponse` tells LLM from
embedding metadata purely by the stored value's dynamic type. -/
theorem cache_context_key_aliasing (ctx : Ctx) (v : CacheVal)
    (m : EmbeddingCacheMetadata) (ml : LLMCacheMetadata) :
    llmCacheContextKey = embeddingCacheContextKey ∧
    ctxValue (withValue ctx llmCacheContextKey v) embeddingCacheContextKey =
      some v ∧
    ctxValue (withValue ctx embeddingCacheContextKey v) llmCacheContextKey =
      some v ∧
    ctxValue (directorDetachContext ctx) embeddingCacheContextKey =
      ctxValue ctx embeddingCacheContextKey ∧
    modifyResponseDispatch (withValue ([] : Ctx) llmCacheContextKey (.emb m)) =
      .embPost m ∧
    modifyResponseDispatch
        (withValue ([] : Ctx) llmCacheContextKey
          (.llm { ml with stream := false })) =
      .llmPost { ml with stream := false } := by
  refine ⟨rfl, rfl, rfl, ?_, rfl, rfl⟩
  have hk2 : ctxValue ctx embeddingCacheContextKey =
      ctxValue ctx llmCacheContextKey := rfl
  rw [hk2]
  cases h : ctxValue ctx llmCacheContextKey with
  | some v0 =>
    show ctxValue (directorDetachContext ctx) embeddingCacheContextKey = some v0
    unfold directorDetachContext
    rw [h]
    rfl
  | none =>
    show ctxValue (directorDetachContext ctx) embeddingCacheContextKey = none
    unfold directorDetachContext
    rw [h]
    rfl

end GoLLMProxy
